import Mathlib

/-!
A shallow embedding, in Lean 4, of the core logic of the `FinalApp`
repository (`app/cooking_agent.py`, `app/processor.py`, `app/main.py`),
together with theorems settling the specification claims about it.

Python strings are modelled as `String` (ASCII-faithful operations),
Python lists as `List`, dictionaries as explicit lookup functions
returning `Option`, and fallible/raising code as `Except`.
-/

namespace FinalApp

/-! ## Recipe search (`search_recipes` in `app/cooking_agent.py`) -/

/-- A recipe entry of the simulated recipe database:
`{"name": ..., "ingredients": [...]}`. -/
structure Recipe where
  name : String
  ingredients : List String
deriving Repr, DecidableEq

/-- An element of `matching_recipes`:
`{"name", "matched_ingredients", "all_ingredients"}`. -/
structure MatchResult where
  name : String
  matched : Nat
  allIngredients : List String
deriving Repr, DecidableEq

/-- The `"Italian"` bucket's `"recipes"` list of `recipes_db`. -/
def italianRecipes : List Recipe :=
  [⟨"Pasta Carbonara", ["pasta", "eggs", "bacon", "parmesan"]⟩,
   ⟨"Tomato Basil Pasta", ["pasta", "tomato", "garlic", "basil"]⟩,
   ⟨"Garlic Pasta", ["pasta", "garlic", "olive oil"]⟩]

/-- The `"Asian"` bucket's `"recipes"` list of `recipes_db`. -/
def asianRecipes : List Recipe :=
  [⟨"Stir Fry", ["soy sauce", "garlic", "ginger", "vegetables"]⟩,
   ⟨"Fried Rice", ["rice", "soy sauce", "eggs", "vegetables"]⟩,
   ⟨"Garlic Ginger Shrimp", ["shrimp", "garlic", "ginger"]⟩]

/-- The `"any"` bucket's `"recipes"` list of `recipes_db`. -/
def anyRecipes : List Recipe :=
  [⟨"Vegetable Soup", ["vegetables", "water", "salt"]⟩,
   ⟨"Eggs Scrambled", ["eggs", "butter", "salt"]⟩,
   ⟨"Grilled Chicken", ["chicken", "salt", "pepper"]⟩]

/-- The `recipes_db` dictionary, as the map from a key to the `"recipes"`
list of its bucket (the unused `"ingredients"` entries of the Italian and
Asian buckets are omitted; `search_recipes` never reads them). -/
def recipesDB (key : String) : Option (List Recipe) :=
  if key = "Italian" then some italianRecipes
  else if key = "Asian" then some asianRecipes
  else if key = "any" then some anyRecipes
  else none

/-- Python's `str.lower()`: every character lowercased (ASCII behaviour). -/
def pyLower (s : String) : String :=
  String.mk (s.toList.map Char.toLower)

/-- Python's `str.capitalize()`: first character uppercased, the rest
lowercased (ASCII behaviour). -/
def pyCapitalize (s : String) : String :=
  match s.toList with
  | [] => ""
  | c :: cs => String.mk (c.toUpper :: cs.map Char.toLower)

/-- `cuisine_key = cuisine.capitalize() if cuisine != "any" else "any"`. -/
def cuisineKey (cuisine : String) : String :=
  if cuisine ≠ "any" then pyCapitalize cuisine else "any"

/-- `recipes = recipes_db.get(cuisine_key, {}).get("recipes",
recipes_db["any"]["recipes"])`: the resolved bucket's recipe list, falling
back to the `"any"` bucket when the key is absent. -/
def resolveRecipes (cuisine : String) : List Recipe :=
  (recipesDB (cuisineKey cuisine)).getD anyRecipes

/-- `ingredient_matches = sum(1 for ing in ingredients if ing.lower() in
[i.lower() for i in recipe["ingredients"]])`. -/
def matchedCount (ingredients : List String) (r : Recipe) : Nat :=
  ingredients.countP (fun ing => (r.ingredients.map pyLower).contains (pyLower ing))

/-- The `MatchResult` appended to `matching_recipes` for one recipe. -/
def toResult (ingredients : List String) (r : Recipe) : MatchResult :=
  ⟨r.name, matchedCount ingredients r, r.ingredients⟩

/-- The `for recipe in recipes:` loop of `search_recipes`, which appends a
result for each recipe with `ingredient_matches > 0`, in bucket order. -/
def matchingRecipes (ingredients : List String) : List Recipe → List MatchResult
  | [] => []
  | r :: rs =>
      if matchedCount ingredients r > 0 then
        toResult ingredients r :: matchingRecipes ingredients rs
      else matchingRecipes ingredients rs

/-- One step of a stable descending insertion sort: `x` is placed before
the first element whose key does not exceed `x`'s, so an element inserted
from earlier in the original list precedes later elements with an equal
key.  Together with `sortDesc` this is the unique stable sort realising
Python's `sorted(..., key=lambda x: x["matched_ingredients"],
reverse=True)`. -/
def insertDesc (x : MatchResult) : List MatchResult → List MatchResult
  | [] => [x]
  | y :: ys => if y.matched ≤ x.matched then x :: y :: ys else y :: insertDesc x ys

/-- Stable sort by `matched` descending, modelling Python's stable
`sorted(matching_recipes, key=..., reverse=True)`. -/
def sortDesc : List MatchResult → List MatchResult
  | [] => []
  | x :: xs => insertDesc x (sortDesc xs)

/-- One `result += f"- {name} (matches {n} ingredients: {...})\n"` line. -/
def renderLine (m : MatchResult) : String :=
  "- " ++ m.name ++ " (matches " ++ toString m.matched ++ " ingredients: " ++
    String.intercalate ", " m.allIngredients ++ ")\n"

/-- `search_recipes(ingredients, cuisine)` from `app/cooking_agent.py`. -/
def search_recipes (ingredients : List String) (cuisine : String) : String :=
  let recipes := resolveRecipes cuisine
  let matching := matchingRecipes ingredients recipes
  if matching ≠ [] then
    (sortDesc matching).foldl (fun acc m => acc ++ renderLine m)
      ("Found " ++ toString matching.length ++ " recipes:\n")
  else
    "No recipes found with " ++ cuisine ++ " cuisine and ingredients: " ++
      String.intercalate ", " ingredients

/-- The matched-count computation as the specification words it: the number
of caller ingredients that are case-insensitively equal to some element of
the candidate's ingredient list (exact token match). -/
def matchedCountSpec (ingredients : List String) (r : Recipe) : Nat :=
  (ingredients.filter (fun ing => r.ingredients.any (fun i => pyLower ing == pyLower i))).length

/-! ### Lemmas about `search_recipes` -/

theorem matchingRecipes_nil (rs : List Recipe) : matchingRecipes [] rs = [] := by
  induction rs with
  | nil => rfl
  | cons r rs ih => simp [matchingRecipes, matchedCount, ih]

theorem matchingRecipes_eq_filter (ingredients : List String) (rs : List Recipe) :
    matchingRecipes ingredients rs =
      (rs.map (toResult ingredients)).filter (fun m => m.matched != 0) := by
  induction rs with
  | nil => rfl
  | cons r rs ih =>
      rw [matchingRecipes, List.map_cons, List.filter_cons]
      by_cases h : matchedCount ingredients r > 0
      · rw [if_pos h, ih]
        have hb : ((toResult ingredients r).matched != 0) = true := by
          simp [toResult]; omega
        rw [hb]
        simp
      · rw [if_neg h, ih]
        have hb : ((toResult ingredients r).matched != 0) = false := by
          simp [toResult]; omega
        rw [hb]
        simp

theorem mem_insertDesc {x b : MatchResult} {l : List MatchResult} :
    b ∈ insertDesc x l ↔ b = x ∨ b ∈ l := by
  induction l with
  | nil => simp [insertDesc]
  | cons y ys ih =>
      rw [insertDesc]
      by_cases h : y.matched ≤ x.matched
      · rw [if_pos h]; simp
      · rw [if_neg h]; simp [ih]; tauto

theorem insertDesc_pairwise {x : MatchResult} {l : List MatchResult}
    (h : l.Pairwise (fun a b => b.matched ≤ a.matched)) :
    (insertDesc x l).Pairwise (fun a b => b.matched ≤ a.matched) := by
  induction l with
  | nil => simp [insertDesc]
  | cons y ys ih =>
      rw [insertDesc]
      rw [List.pairwise_cons] at h
      by_cases hc : y.matched ≤ x.matched
      · rw [if_pos hc]
        refine List.Pairwise.cons ?_ (List.Pairwise.cons h.1 h.2)
        intro b hb
        rcases List.mem_cons.mp hb with rfl | hb
        · exact hc
        · exact le_trans (h.1 b hb) hc
      · rw [if_neg hc]
        refine List.Pairwise.cons ?_ (ih h.2)
        intro b hb
        rcases mem_insertDesc.mp hb with rfl | hb
        · omega
        · exact h.1 b hb

theorem sortDesc_pairwise (l : List MatchResult) :
    (sortDesc l).Pairwise (fun a b => b.matched ≤ a.matched) := by
  induction l with
  | nil => simp [sortDesc]
  | cons x xs ih => exact insertDesc_pairwise ih

theorem filter_insertDesc (c : Nat) (x : MatchResult) (l : List MatchResult) :
    (insertDesc x l).filter (fun m => m.matched == c) =
      if x.matched = c then x :: l.filter (fun m => m.matched == c)
      else l.filter (fun m => m.matched == c) := by
  induction l with
  | nil =>
      by_cases h : x.matched = c <;> simp [insertDesc, List.filter_cons, h]
  | cons y ys ih =>
      rw [insertDesc]
      by_cases hc : y.matched ≤ x.matched
      · rw [if_pos hc]
        by_cases hx : x.matched = c <;> simp [List.filter_cons, hx]
      · rw [if_neg hc]
        rw [List.filter_cons, List.filter_cons]
        by_cases hy : y.matched = c
        · have hx : ¬ x.matched = c := by omega
          simp only [hy, beq_self_eq_true, if_pos, ih, if_neg hx, cond_true]
        · have hyb : (y.matched == c) = false := by simp [hy]
          simp only [hyb, cond_false, ih]
          by_cases hx : x.matched = c <;> simp [hx, List.filter_cons, hyb]

theorem filter_sortDesc (c : Nat) (l : List MatchResult) :
    (sortDesc l).filter (fun m => m.matched == c) =
      l.filter (fun m => m.matched == c) := by
  induction l with
  | nil => rfl
  | cons x xs ih =>
      rw [sortDesc, filter_insertDesc, List.filter_cons]
      by_cases hx : x.matched = c <;> simp [hx, ih]

theorem foldl_render_length (l : List MatchResult) (init : String) :
    init.length ≤ (l.foldl (fun acc m => acc ++ renderLine m) init).length := by
  induction l generalizing init with
  | nil => simp
  | cons x xs ih =>
      calc init.length ≤ (init ++ renderLine x).length := by
            rw [String.length_append]; omega
        _ ≤ _ := ih (init ++ renderLine x)

theorem ne_empty_of_length_pos {s : String} (h : 0 < s.length) : s ≠ "" := by
  intro he
  rw [he] at h
  simp at h

theorem contains_map_pyLower (l : List String) (a : String) :
    (l.map pyLower).contains (pyLower a) = l.any (fun i => pyLower a == pyLower i) := by
  rw [List.contains_eq_any_beq, List.any_map]
  rfl

/-! ### Claim theorems about `search_recipes` -/

set_option maxRecDepth 10000 in
/-- C1 (counterexample): `"French"` normalizes to a lookup key absent from
the recipe table, yet `search_recipes ["x"] "French"` differs from
`search_recipes ["x"] "any"`: in the no-match branch the report names the
requested cuisine string verbatim. -/
theorem searchRecipes_unknown_cuisine_counterexample :
    recipesDB (cuisineKey "French") = none ∧
    search_recipes ["x"] "French" ≠ search_recipes ["x"] "any" := by
  refine ⟨by decide, by decide⟩

/-- C1 (amended): when the normalized lookup key is absent from the recipe
table the resolved bucket is the `"any"` bucket, and whenever at least one
recipe matches, the full report string equals the one returned for cuisine
`"any"`; in the no-match branch the report instead names the requested
cuisine string (so it differs from the `"any"` report unless the cuisine
string is itself `"any"`). -/
theorem searchRecipes_unknown_cuisine (ingredients : List String) (cuisine : String)
    (h : recipesDB (cuisineKey cuisine) = none) :
    resolveRecipes cuisine = anyRecipes ∧
    (matchingRecipes ingredients anyRecipes ≠ [] →
      search_recipes ingredients cuisine = search_recipes ingredients "any") ∧
    (matchingRecipes ingredients anyRecipes = [] →
      search_recipes ingredients cuisine =
        "No recipes found with " ++ cuisine ++ " cuisine and ingredients: " ++
          String.intercalate ", " ingredients) := by
  have hres : resolveRecipes cuisine = anyRecipes := by
    rw [resolveRecipes, h]
    rfl
  have hany : resolveRecipes "any" = anyRecipes := rfl
  refine ⟨hres, ?_, ?_⟩
  · intro hm
    simp only [search_recipes, hres, hany, hm]
    rw [if_pos hm, if_pos hm]
  · intro hm
    simp only [search_recipes, hres, hm]
    simp

set_option maxRecDepth 10000 in
/-- Witness for `searchRecipes_unknown_cuisine` at a concrete input. -/
theorem searchRecipes_unknown_cuisine_witness :
    resolveRecipes "French" = anyRecipes ∧
    search_recipes ["salt"] "French" = search_recipes ["salt"] "any" := by
  have h := searchRecipes_unknown_cuisine ["salt"] "French" (by decide)
  exact ⟨h.1, h.2.1 (by decide)⟩

/-- C2: the candidate list rendered by `search_recipes` is `sortDesc` of the
matching list: sorted by matched-ingredient count in descending order, and
for every matched count `c ≠ 0` the candidates with that count appear in
exactly the relative order of the resolved cuisine bucket's recipe list
(stability of the sort). -/
theorem searchRecipes_sorted_stable (ingredients : List String) (cuisine : String) :
    (sortDesc (matchingRecipes ingredients (resolveRecipes cuisine))).Pairwise
      (fun a b => b.matched ≤ a.matched) ∧
    (∀ c : Nat, c ≠ 0 →
      (sortDesc (matchingRecipes ingredients (resolveRecipes cuisine))).filter
          (fun m => m.matched == c) =
        ((resolveRecipes cuisine).map (toResult ingredients)).filter
          (fun m => m.matched == c)) := by
  refine ⟨sortDesc_pairwise _, ?_⟩
  intro c hc
  rw [filter_sortDesc, matchingRecipes_eq_filter, List.filter_filter]
  apply List.filter_congr
  intro m _
  by_cases h : m.matched = c
  · simp [h, hc]
  · simp [h]

set_option maxRecDepth 10000 in
/-- Witness for `searchRecipes_sorted_stable` at a concrete input. -/
theorem searchRecipes_sorted_stable_witness :
    (sortDesc (matchingRecipes ["salt"] (resolveRecipes "any"))).filter
        (fun m => m.matched == 1) =
      ((resolveRecipes "any").map (toResult ["salt"])).filter
        (fun m => m.matched == 1) :=
  (searchRecipes_sorted_stable ["salt"] "any").2 1 (by decide)

/-- C3: the matched count computed by `search_recipes` equals the number of
caller ingredients case-insensitively equal to some element of the
candidate's ingredient list (exact token match, not substring), and the
matching list is exactly the bucket's candidates with nonzero matched count
(zero-count candidates are excluded from the report). -/
theorem matchedCount_spec_and_zero_excluded (ingredients : List String) (r : Recipe)
    (rs : List Recipe) :
    matchedCount ingredients r = matchedCountSpec ingredients r ∧
    matchingRecipes ingredients rs =
      (rs.map (toResult ingredients)).filter (fun m => m.matched != 0) := by
  refine ⟨?_, matchingRecipes_eq_filter ingredients rs⟩
  rw [matchedCount, matchedCountSpec, List.countP_eq_length_filter]
  congr 1
  exact List.filter_congr (fun ing _ => contains_map_pyLower r.ingredients ing)

/-- C9: `search_recipes` is a total function (the embedding is a plain Lean
function: no error paths) and always returns a non-empty string, for every
ingredient list and cuisine. -/
theorem searchRecipes_nonempty (ingredients : List String) (cuisine : String) :
    search_recipes ingredients cuisine ≠ "" := by
  apply ne_empty_of_length_pos
  simp only [search_recipes]
  by_cases h : matchingRecipes ingredients (resolveRecipes cuisine) = []
  · rw [if_neg (by simp [h])]
    rw [String.length_append, String.length_append, String.length_append]
    have : 0 < "No recipes found with ".length := by decide
    omega
  · rw [if_pos h]
    calc 0 < ("Found " ++
          toString (matchingRecipes ingredients (resolveRecipes cuisine)).length ++
          " recipes:\n").length := by
          rw [String.length_append, String.length_append]
          have : 0 < "Found ".length := by decide
          omega
      _ ≤ _ := foldl_render_length _ _

/-- C10: with an empty ingredient list every candidate's matched count is 0,
so for every cuisine `search_recipes` returns the fixed no-recipes sentence
naming that cuisine and an empty ingredient listing. -/
theorem searchRecipes_empty_ingredients (cuisine : String) :
    search_recipes [] cuisine =
      "No recipes found with " ++ cuisine ++ " cuisine and ingredients: " := by
  simp only [search_recipes, matchingRecipes_nil]
  simp only [ne_eq, not_true_eq_false, if_false]
  rw [show String.intercalate ", " ([] : List String) = "" from rfl, String.append_empty]

/-! ## Ingredient extraction (`extract_ingredients` in `app/cooking_agent.py`) -/

/-- The `ingredient_keywords` list. -/
def ingredient_keywords : List String :=
  ["cup", "tablespoon", "teaspoon", "tbsp", "tsp", "oz", "grams", "g",
   "ml", "liter", "pound", "lb", "kg", "clove", "piece", "slice",
   "flour", "sugar", "salt", "pepper", "butter", "oil", "water",
   "eggs", "milk", "cheese", "tomato", "garlic", "onion", "potato",
   "rice", "pasta", "bread", "chicken", "beef", "fish", "shrimp",
   "vegetables", "herbs", "spices", "vanilla", "chocolate", "nuts"]

/-- Python's substring containment `p in s`, on character lists: `p` occurs
contiguously somewhere in the list. -/
def listContainsSub (p : List Char) : List Char → Bool
  | [] => p.isEmpty
  | c :: cs => p.isPrefixOf (c :: cs) || listContainsSub p cs

/-- `any(keyword in word for keyword in ingredient_keywords)`. -/
def flaggedWord (word : String) : Bool :=
  ingredient_keywords.any (fun k => listContainsSub k.toList word.toList)

/-- Helper for `tokenize`: splits on whitespace runs, discarding empty
tokens, accumulating the current token in reverse. -/
def splitWsAux : List Char → List Char → List String
  | cur, [] => if cur.isEmpty then [] else [String.mk cur.reverse]
  | cur, c :: cs =>
      if c.isWhitespace then
        if cur.isEmpty then splitWsAux [] cs
        else String.mk cur.reverse :: splitWsAux [] cs
      else splitWsAux (c :: cur) cs

/-- `words = recipe_text.lower().split()`: lowercase, then whitespace
tokenization with empty tokens discarded (Python `str.split()`). -/
def tokenize (recipe_text : String) : List String :=
  splitWsAux [] (recipe_text.toList.map Char.toLower)

/-- The phrase appended for a flagged token at position `i` of `words`:
`words[i-1] + " " + word` extended by `" " + words[i+1]` when it exists, for
`i > 0`; the bare token for `i = 0`. -/
def phraseAt (words : List String) (i : Nat) : String :=
  if i > 0 then
    if words.length > i + 1 then
      words.getD (i-1) "" ++ " " ++ words.getD i "" ++ " " ++ words.getD (i+1) ""
    else words.getD (i-1) "" ++ " " ++ words.getD i ""
  else words.getD i ""

/-- The `for i, word in enumerate(words)` loop of `extract_ingredients`:
the `extracted` list of phrases, one per flagged token, in position
order. -/
def extractedPhrases (words : List String) : List String :=
  ((List.range words.length).filter (fun i => flaggedWord (words.getD i ""))).map
    (phraseAt words)

/-- The dedup loop with the `seen` set (modelled as the list of phrases
added so far): keeps the first occurrence of each phrase. -/
def dedupGo (seen : List String) : List String → List String
  | [] => []
  | x :: xs => if seen.contains x then dedupGo seen xs else x :: dedupGo (x :: seen) xs

/-- `unique_ingredients` as computed by `extract_ingredients`. -/
def unique_ingredients (extracted : List String) : List String :=
  dedupGo [] extracted

/-- `extract_ingredients(recipe_text)` from `app/cooking_agent.py`. -/
def extract_ingredients (recipe_text : String) : String :=
  let words := tokenize recipe_text
  let uniq := unique_ingredients (extractedPhrases words)
  if uniq ≠ [] then
    "Extracted ingredients:\n" ++
      String.intercalate "\n" ((uniq.take 15).map (fun ing => "- " ++ ing))
  else "No ingredients found in the provided text."

/-- Deduplication as the specification words it: keep the first occurrence
of each phrase and delete the later duplicates. -/
def dedupSpec : List String → List String
  | [] => []
  | x :: xs => x :: dedupSpec (xs.filter (fun y => y != x))
termination_by l => l.length
decreasing_by
  simp only [List.length_cons]
  exact Nat.lt_succ_of_le (List.length_filter_le _ _)

/-- The phrase claim C4 describes for a flagged token at position `i`:
token before (if any), the token, token after (if any). -/
def claimPhrase (words : List String) (i : Nat) : String :=
  (if i > 0 then words.getD (i-1) "" ++ " " else "") ++ words.getD i "" ++
    (if words.length > i + 1 then " " ++ words.getD (i+1) "" else "")

/-! ### Lemmas about `extract_ingredients` -/

theorem dedupSpec_nil : dedupSpec [] = [] := by simp [dedupSpec]

theorem dedupSpec_cons (x : String) (xs : List String) :
    dedupSpec (x :: xs) = x :: dedupSpec (xs.filter (fun y => y != x)) := by
  simp [dedupSpec]

theorem dedupGo_eq_dedupSpec (seen : List String) (l : List String) :
    dedupGo seen l = dedupSpec (l.filter (fun y => !(seen.contains y))) := by
  induction l generalizing seen with
  | nil => rw [List.filter_nil, dedupSpec_nil, dedupGo]
  | cons x xs ih =>
      rw [dedupGo, List.filter_cons]
      by_cases h : seen.contains x = true
      · rw [if_pos h, h]
        simp only [Bool.not_true, cond_false]
        exact ih seen
      · have h' : seen.contains x = false := by
          cases hx : seen.contains x
          · rfl
          · exact absurd hx h
        rw [if_neg h, h']
        simp only [Bool.not_false, cond_true, if_true]
        rw [dedupSpec_cons, ih (x :: seen), List.filter_filter]
        congr 1
        apply congrArg
        apply List.filter_congr
        intro y _
        have hmem : seen.contains y = true ↔ y ∈ seen := List.elem_iff
        cases hy : (y == x) <;> cases hs : seen.contains y <;>
          simp_all [List.contains_cons, bne, beq_iff_eq]

theorem mem_dedupSpec (y : String) : ∀ (l : List String), y ∈ dedupSpec l → y ∈ l := by
  intro l
  induction l using dedupSpec.induct with
  | case1 => simp [dedupSpec_nil]
  | case2 x xs ih =>
      rw [dedupSpec_cons]
      intro h
      rcases List.mem_cons.mp h with rfl | h2
      · exact List.mem_cons_self _ _
      · exact List.mem_cons_of_mem _ (List.mem_of_mem_filter (ih h2))

theorem nodup_dedupSpec (l : List String) : (dedupSpec l).Nodup := by
  induction l using dedupSpec.induct with
  | case1 => rw [dedupSpec_nil]; exact List.nodup_nil
  | case2 x xs ih =>
      rw [dedupSpec_cons]
      refine List.Nodup.cons ?_ ih
      intro hx
      have hmem := mem_dedupSpec x _ hx
      have := (List.mem_filter.mp hmem).2
      simp at this

theorem unique_ingredients_eq_dedupSpec (l : List String) :
    unique_ingredients l = dedupSpec l := by
  rw [unique_ingredients, dedupGo_eq_dedupSpec]
  apply congrArg
  exact List.filter_eq_self.mpr (fun a _ => rfl)

/-! ### Claim theorems about `extract_ingredients` -/

set_option maxRecDepth 10000 in
/-- C4 (counterexample): in `"flour cake"` the token `"flour"` at position 0
is flagged and has a successor, but the emitted phrase is the bare token
`"flour"`, not the claimed two-word phrase `"flour cake"`. -/
theorem extractIngredients_position0_counterexample :
    tokenize "flour cake" = ["flour", "cake"] ∧
    flaggedWord "flour" = true ∧
    claimPhrase ["flour", "cake"] 0 = "flour cake" ∧
    extractedPhrases ["flour", "cake"] = ["flour"] ∧
    "flour cake" ∉ extractedPhrases ["flour", "cake"] ∧
    extract_ingredients "flour cake" = "Extracted ingredients:\n- flour" := by
  decide

/-- C4 (amended): every phrase emitted by the extraction loop comes from a
flagged token at some position `j` and is its window phrase `phraseAt`; for
a flagged token at position `i > 0` the phrase is the token before it, the
token, and the token after it when one exists, while at position `i = 0`
the phrase is the bare token alone, even when a successor exists. -/
theorem extractIngredients_phrase_window (words : List String) (i : Nat)
    (h : i < words.length) (hf : flaggedWord (words.getD i "") = true) :
    phraseAt words i ∈ extractedPhrases words ∧
    phraseAt words i =
      (if i = 0 then words.getD 0 ""
       else if words.length > i + 1 then
         words.getD (i-1) "" ++ " " ++ words.getD i "" ++ " " ++ words.getD (i+1) ""
       else words.getD (i-1) "" ++ " " ++ words.getD i "") ∧
    ∀ p ∈ extractedPhrases words, ∃ j, j < words.length ∧
      flaggedWord (words.getD j "") = true ∧ p = phraseAt words j := by
  refine ⟨?_, ?_, ?_⟩
  · apply List.mem_map_of_mem
    rw [List.mem_filter]
    exact ⟨List.mem_range.mpr h, hf⟩
  · by_cases h0 : i = 0
    · subst h0; simp [phraseAt]
    · have hpos : i > 0 := Nat.pos_of_ne_zero h0
      rw [phraseAt, if_pos hpos, if_neg h0]
  · intro p hp
    rcases List.mem_map.mp hp with ⟨j, hj, rfl⟩
    rcases List.mem_filter.mp hj with ⟨hjr, hjf⟩
    exact ⟨j, List.mem_range.mp hjr, hjf, rfl⟩

set_option maxRecDepth 10000 in
/-- Witness for `extractIngredients_phrase_window` at a concrete input. -/
theorem extractIngredients_phrase_window_witness :
    phraseAt ["flour"] 0 ∈ extractedPhrases ["flour"] :=
  (extractIngredients_phrase_window ["flour"] 0 (by decide) (by decide)).1

/-- C5: for every input text the listed phrases (the first 15 of the
deduplicated extraction, exactly what the report renders) number at most
15 and contain no duplicates, and the deduplication keeps exactly the
first occurrence of each phrase in emission order. -/
theorem extractIngredients_at_most_15_unique (recipe_text : String) :
    ((unique_ingredients (extractedPhrases (tokenize recipe_text))).take 15).length ≤ 15 ∧
    ((unique_ingredients (extractedPhrases (tokenize recipe_text))).take 15).Nodup ∧
    unique_ingredients (extractedPhrases (tokenize recipe_text)) =
      dedupSpec (extractedPhrases (tokenize recipe_text)) := by
  have hspec := unique_ingredients_eq_dedupSpec (extractedPhrases (tokenize recipe_text))
  refine ⟨List.length_take_le _ _, ?_, hspec⟩
  have hnodup : (unique_ingredients (extractedPhrases (tokenize recipe_text))).Nodup := by
    rw [hspec]; exact nodup_dedupSpec _
  exact List.Nodup.sublist (List.take_sublist _ _) hnodup

/-! ## Document extraction (`process_pdf` in `app/processor.py`)

The model call itself is external; the embedding covers the reply-handling
tail of `process_pdf`: strip the code-fence markers with
`re.sub(r'```json|```', '', text_response)`, `.strip()` the result,
attempt `json.loads`, and fall back to the fixed sentinel record when the
parse raises. -/

/-- A parsed JSON value, as produced by `json.loads` (numbers are modelled
as integers; the claims under study never involve fractional numerics). -/
inductive Json where
  | null : Json
  | bool (b : Bool) : Json
  | num (n : Int) : Json
  | str (s : String) : Json
  | arr (xs : List Json) : Json
  | obj (fields : List (String × Json)) : Json

/-- `re.sub(r'```json|```', '', text)`: scan left to right, at each
position removing `` ```json `` when it matches (preferred by the ordered
alternation), else removing `` ``` `` when that matches, else keeping the
character and moving on. -/
def removeFences : List Char → List Char
  | '`' :: '`' :: '`' :: 'j' :: 's' :: 'o' :: 'n' :: rest => removeFences rest
  | '`' :: '`' :: '`' :: rest => removeFences rest
  | c :: cs => c :: removeFences cs
  | [] => []

/-- Python's `str.strip()`: remove leading and trailing whitespace. -/
def trimChars (l : List Char) : List Char :=
  ((l.dropWhile Char.isWhitespace).reverse.dropWhile Char.isWhitespace).reverse

/-- `clean_json = re.sub(r'```json|```', '', text_response).strip()`. -/
def cleanReply (text_response : String) : String :=
  String.mk (trimChars (removeFences text_response.toList))

/-- JSON whitespace (space, tab, newline, carriage return), skipped between
tokens. -/
def skipWs : List Char → List Char
  | [] => []
  | c :: cs =>
      if c = ' ' ∨ c = '\t' ∨ c = '\n' ∨ c = '\r' then skipWs cs else c :: cs

/-- Body of a JSON string after the opening quote: plain characters and the
common escapes (`\" \\ \/ \n \t \r \b \f`; raw control characters are
rejected as `json.loads` does in strict mode, and `\uXXXX` escapes are
outside the modelled subset).  Returns the decoded body and the input
after the closing quote. -/
def parseStrBody : Nat → List Char → Option (List Char × List Char)
  | 0, _ => none
  | _ + 1, [] => none
  | fuel + 1, c :: cs =>
      if c = '"' then some ([], cs)
      else if c = '\\' then
        match cs with
        | [] => none
        | e :: cs' =>
            let d? : Option Char :=
              if e = '"' then some '"'
              else if e = '\\' then some '\\'
              else if e = '/' then some '/'
              else if e = 'n' then some '\n'
              else if e = 't' then some '\t'
              else if e = 'r' then some '\r'
              else if e = 'b' then some (Char.ofNat 8)
              else if e = 'f' then some (Char.ofNat 12)
              else none
            match d? with
            | none => none
            | some d =>
                match parseStrBody fuel cs' with
                | none => none
                | some (body, rest) => some (d :: body, rest)
      else if c.toNat < 32 then none
      else
        match parseStrBody fuel cs with
        | none => none
        | some (body, rest) => some (c :: body, rest)

/-- Value of a nonempty digit run. -/
def digitsToNat (ds : List Char) : Nat :=
  ds.foldl (fun acc d => acc * 10 + (d.toNat - 48)) 0

mutual

/-- One JSON value (recursive descent over the modelled `json.loads`
grammar: `null`, `true`, `false`, integer numbers, strings, arrays,
objects); returns the value and the unconsumed input. -/
def parseValue : Nat → List Char → Option (Json × List Char)
  | 0, _ => none
  | fuel + 1, input =>
      match skipWs input with
      | [] => none
      | c :: cs =>
          if c = 'n' then
            if ['u', 'l', 'l'].isPrefixOf cs then some (.null, cs.drop 3) else none
          else if c = 't' then
            if ['r', 'u', 'e'].isPrefixOf cs then some (.bool true, cs.drop 3) else none
          else if c = 'f' then
            if ['a', 'l', 's', 'e'].isPrefixOf cs then some (.bool false, cs.drop 4) else none
          else if c = '"' then
            match parseStrBody (cs.length + 1) cs with
            | none => none
            | some (body, rest) => some (.str (String.mk body), rest)
          else if c = '[' then
            match skipWs cs with
            | ']' :: rest => some (.arr [], rest)
            | _ =>
                match parseArrElems fuel cs with
                | none => none
                | some (vs, rest) => some (.arr vs, rest)
          else if c = '\x7b' then
            match skipWs cs with
            | '\x7d' :: rest => some (.obj [], rest)
            | _ =>
                match parseObjMembers fuel cs with
                | none => none
                | some (ms, rest) => some (.obj ms, rest)
          else if c = '-' ∨ c.isDigit then
            let rest0 := if c = '-' then cs else c :: cs
            let digits := rest0.takeWhile Char.isDigit
            let rest1 := rest0.dropWhile Char.isDigit
            if digits.isEmpty then none
            else
              match rest1 with
              | d :: _ =>
                  if d = '.' ∨ d = 'e' ∨ d = 'E' then none
                  else some (.num (if c = '-' then -(digitsToNat digits : Int)
                                   else (digitsToNat digits : Int)), rest1)
              | [] => some (.num (if c = '-' then -(digitsToNat digits : Int)
                                  else (digitsToNat digits : Int)), rest1)
          else none

/-- The comma-separated elements of a nonempty array, up to and including
the closing bracket. -/
def parseArrElems : Nat → List Char → Option (List Json × List Char)
  | 0, _ => none
  | fuel + 1, input =>
      match parseValue fuel input with
      | none => none
      | some (v, rest) =>
          match skipWs rest with
          | ',' :: rest2 =>
              match parseArrElems fuel rest2 with
              | none => none
              | some (vs, r) => some (v :: vs, r)
          | ']' :: rest2 => some ([v], rest2)
          | _ => none

/-- The comma-separated members of a nonempty object, up to and including
the closing brace. -/
def parseObjMembers : Nat → List Char → Option (List (String × Json) × List Char)
  | 0, _ => none
  | fuel + 1, input =>
      match skipWs input with
      | '"' :: cs =>
          match parseStrBody (cs.length + 1) cs with
          | none => none
          | some (key, rest) =>
              match skipWs rest with
              | ':' :: rest2 =>
                  match parseValue fuel rest2 with
                  | none => none
                  | some (v, rest3) =>
                      match skipWs rest3 with
                      | ',' :: rest4 =>
                          match parseObjMembers fuel rest4 with
                          | none => none
                          | some (ms, r) => some ((String.mk key, v) :: ms, r)
                      | '\x7d' :: rest4 => some ([(String.mk key, v)], rest4)
                      | _ => none
              | _ => none
      | _ => none

end

/-- `json.loads(clean_json)` on the modelled subset: parse one value with
surrounding whitespace allowed, reject trailing content; `none` models the
parse exception. -/
def parseJson (s : String) : Option Json :=
  match parseValue (2 * s.toList.length + 8) s.toList with
  | none => none
  | some (v, rest) => if (skipWs rest).isEmpty then some v else none

/-- The sentinel record `{"title": "Error", "author": "Error", "summary":
"Could not parse AI response."}` returned on parse failure. -/
def errorSentinel : Json :=
  .obj [("title", .str "Error"), ("author", .str "Error"),
        ("summary", .str "Could not parse AI response.")]

/-- The reply-handling tail of `process_pdf`: clean the reply, attempt the
JSON parse, return the parsed value, or the sentinel when parsing fails. -/
def process_pdf_reply (text_response : String) : Json :=
  match parseJson (cleanReply text_response) with
  | some v => v
  | none => errorSentinel

/-- Whether a JSON value is an object with exactly the keys `title`,
`author` and `summary` (the shape claim C6 asks about). -/
def hasExactKeys : Json → Bool
  | .obj fields =>
      let ks := fields.map Prod.fst
      ks.length == 3 && ks.contains "title" && ks.contains "author" &&
        ks.contains "summary"
  | _ => false

/-- A reply wrapped in markdown ```json fences, as the model emits them. -/
def wrapJsonFence (t : String) : String :=
  "```json\n" ++ t ++ "\n```"

/-! ### Lemmas about `process_pdf_reply` -/

theorem removeFences_json_cons (rest : List Char) :
    removeFences ('`' :: '`' :: '`' :: 'j' :: 's' :: 'o' :: 'n' :: rest) =
      removeFences rest :=
  rfl

theorem removeFences_triple (rest : List Char)
    (h : ∀ r, rest ≠ 'j' :: 's' :: 'o' :: 'n' :: r) :
    removeFences ('`' :: '`' :: '`' :: rest) = removeFences rest := by
  rw [removeFences.eq_def]
  split
  · rename_i r heq
    simp only [List.cons.injEq, true_and] at heq
    exact absurd heq (h r)
  · rename_i r heq
    simp only [List.cons.injEq, true_and] at heq
    rw [heq]
  · rename_i c' cs' hx1 hx2 heq
    injection heq with a1 a2
    exact (hx2 rest (by first | exact a1 | exact a1.symm)
      (by first | exact a2 | exact a2.symm)).elim
  · rename_i heq
    exact absurd heq (by simp)

theorem removeFences_cons_notTriple (c : Char) (cs : List Char)
    (h : ∀ r, c :: cs ≠ '`' :: '`' :: '`' :: r) :
    removeFences (c :: cs) = c :: removeFences cs := by
  rw [removeFences.eq_def]
  split
  · rename_i r heq
    exact absurd heq (h ('j' :: 's' :: 'o' :: 'n' :: r))
  · rename_i r hx heq
    exact absurd heq (h r)
  · rename_i c' cs' hx1 hx2 heq
    injection heq with a1 a2
    rw [a1, a2]
  · rename_i heq
    exact absurd heq (by simp)

theorem removeFences_append_nl_fence (l : List Char) :
    removeFences (l ++ ['\n', '`', '`', '`']) = removeFences l ++ ['\n'] := by
  induction l using removeFences.induct with
  | case1 rest ih =>
      rw [show ('`' :: '`' :: '`' :: 'j' :: 's' :: 'o' :: 'n' :: rest) ++
          ['\n', '`', '`', '`'] =
        '`' :: '`' :: '`' :: 'j' :: 's' :: 'o' :: 'n' ::
          (rest ++ ['\n', '`', '`', '`']) from rfl]
      rw [removeFences_json_cons, removeFences_json_cons, ih]
  | case2 rest h ih =>
      rw [show ('`' :: '`' :: '`' :: rest) ++ ['\n', '`', '`', '`'] =
        '`' :: '`' :: '`' :: (rest ++ ['\n', '`', '`', '`']) from rfl]
      have h' : ∀ r, rest ++ ['\n', '`', '`', '`'] ≠ 'j' :: 's' :: 'o' :: 'n' :: r := by
        intro r heq
        rcases rest with _ | ⟨a, _ | ⟨b, _ | ⟨c, _ | ⟨d, rs⟩⟩⟩⟩ <;> simp_all
      rw [removeFences_triple _ h', removeFences_triple _ h, ih]
  | case3 c cs h1 h2 ih =>
      have hA : ∀ r, c :: cs ≠ '`' :: '`' :: '`' :: r := by
        intro r heq
        injection heq with a1 a2
        rcases cs with _ | ⟨x, _ | ⟨y, cs'⟩⟩ <;> simp_all
      have hA' : ∀ r, c :: (cs ++ ['\n', '`', '`', '`']) ≠ '`' :: '`' :: '`' :: r := by
        intro r heq
        injection heq with a1 a2
        rcases cs with _ | ⟨x, _ | ⟨y, cs'⟩⟩ <;> simp_all
      rw [show (c :: cs) ++ ['\n', '`', '`', '`'] =
        c :: (cs ++ ['\n', '`', '`', '`']) from rfl]
      rw [removeFences_cons_notTriple _ _ hA', removeFences_cons_notTriple _ _ hA, ih]
      rfl
  | case4 => decide

theorem trimChars_cons_nl (l : List Char) : trimChars ('\n' :: l) = trimChars l := by
  have h : ('\n'.isWhitespace) = true := rfl
  simp [trimChars, List.dropWhile_cons, h]

theorem trimChars_append_nl (l : List Char) : trimChars (l ++ ['\n']) = trimChars l := by
  rw [trimChars, trimChars, List.dropWhile_append]
  by_cases h : (l.dropWhile Char.isWhitespace).isEmpty = true
  · rw [if_pos h]
    rw [List.isEmpty_iff] at h
    rw [h]
    rfl
  · rw [if_neg h]
    rw [List.reverse_append]
    have hnl : ('\n'.isWhitespace) = true := rfl
    simp [List.dropWhile_cons, hnl]

theorem cleanReply_wrapJsonFence (t : String) :
    cleanReply (wrapJsonFence t) = cleanReply t := by
  rw [cleanReply, cleanReply, wrapJsonFence]
  have hlist : ("```json\n" ++ t ++ "\n```").toList =
      '`' :: '`' :: '`' :: 'j' :: 's' :: 'o' :: 'n' :: '\n' ::
        (t.toList ++ ['\n', '`', '`', '`']) := by
    show ("```json\n" ++ t ++ "\n```").data = _
    rw [String.data_append, String.data_append]
    rw [show "```json\n".data = ['`', '`', '`', 'j', 's', 'o', 'n', '\n'] from rfl,
        show "\n```".data = ['\n', '`', '`', '`'] from rfl]
    simp [List.append_assoc]
  rw [hlist, removeFences_json_cons]
  have hnl : ∀ r, ('\n' :: (t.toList ++ ['\n', '`', '`', '`'])) ≠ '`' :: '`' :: '`' :: r := by
    intro r heq
    injection heq with a1 _
    exact absurd a1 (by decide)
  rw [removeFences_cons_notTriple _ _ hnl, removeFences_append_nl_fence,
      trimChars_cons_nl, trimChars_append_nl]

/-! ### Claim theorems about `process_pdf_reply` -/

/-- C6 (counterexample): the reply `"[1]"` cleans to valid JSON that is not
an object with keys title/author/summary, yet `process_pdf_reply` returns
the parsed array as-is, not the sentinel record: only a raising
`json.loads` (malformed JSON) triggers the sentinel. -/
theorem processPdf_nonobject_counterexample :
    parseJson (cleanReply "[1]") = some (.arr [.num 1]) ∧
    hasExactKeys (.arr [.num 1]) = false ∧
    process_pdf_reply "[1]" = .arr [.num 1] ∧
    process_pdf_reply "[1]" ≠ errorSentinel := by
  refine ⟨rfl, rfl, rfl, ?_⟩
  intro h
  have h2 := congrArg hasExactKeys h
  rw [show hasExactKeys (process_pdf_reply "[1]") = false from rfl,
      show hasExactKeys errorSentinel = true from rfl] at h2
  exact Bool.noConfusion h2

/-- C6 (amended): `process_pdf` returns the sentinel record exactly when
the JSON parse of the cleaned reply fails (malformed JSON, modelled as
`parseJson = none`), and the exception never propagates; any successfully
parsed value — including non-objects and objects without the
title/author/summary keys — is returned as-is, not downgraded to the
sentinel. -/
theorem processPdf_sentinel_on_parse_failure (t : String) :
    (parseJson (cleanReply t) = none → process_pdf_reply t = errorSentinel) ∧
    (∀ v, parseJson (cleanReply t) = some v → process_pdf_reply t = v) := by
  constructor
  · intro h
    rw [process_pdf_reply, h]
  · intro v h
    rw [process_pdf_reply, h]

/-- Witness for `processPdf_sentinel_on_parse_failure` at a concrete
input. -/
theorem processPdf_sentinel_on_parse_failure_witness :
    process_pdf_reply "not json" = errorSentinel :=
  (processPdf_sentinel_on_parse_failure "not json").1 rfl

/-- C7: a reply wrapped in ```json fences cleans to the same string as the
unwrapped reply, so document extraction produces the same result record for
both. -/
theorem processPdf_fence_invariant (t : String) :
    process_pdf_reply (wrapJsonFence t) = process_pdf_reply t := by
  rw [process_pdf_reply, process_pdf_reply, cleanReply_wrapJsonFence]

/-! ## Conversational agent (`CookingAgent.chat` in `app/cooking_agent.py`)

`chat` first runs the lazy `initialize()` when `self.agent`/`self.thread`
are unset — that call stands OUTSIDE the `try`/`except`, so an
initialization failure propagates to the caller — and only then streams
the reply inside the `try`/`except`.  The external effects are modelled by
their outcomes: the initialization attempt as `Except String Unit`
(`initialize` wraps any underlying failure in a RuntimeError message), and
the stream as the list of chunk texts it yields (the empty string models a
falsy `chunk.text`) followed by an optional exception; raising is
`Except.error`. -/

/-- One observed behaviour of `agent.run_stream`: the chunk texts yielded,
then either normal termination (`streamErr = none`) or an exception. -/
structure StreamBehavior where
  chunks : List String
  streamErr : Option String

/-- The `try` body of `chat`: accumulate the truthy chunk texts; if the
stream raises, return the `"Error processing request: ..."` string; if the
accumulated reply is empty, return the fixed filler sentence. -/
def chatTryBody (b : StreamBehavior) : String :=
  match b.streamErr with
  | some e => "Error processing request: " ++ e
  | none =>
      let response_text := String.join (b.chunks.filter (fun c => c ≠ ""))
      if response_text ≠ "" then response_text
      else "I'm thinking about that. Could you ask again?"

/-- `CookingAgent.chat`: when the agent is uninitialized, the lazy
`initialize()` runs first and its failure propagates un-caught; otherwise
the reply is produced by the guarded `try` body, which never raises. -/
def chat (initialized : Bool) (initOutcome : Except String Unit)
    (b : StreamBehavior) : Except String String :=
  if initialized then .ok (chatTryBody b)
  else
    match initOutcome with
    | .error e => .error e
    | .ok () => .ok (chatTryBody b)

/-! ### Claim theorems about `chat` -/

/-- C8 (counterexample): with an uninitialized agent whose lazy
initialization fails, `chat` propagates the exception — the
`initialize()` call stands outside the `try`/`except` — so `chat` does
not return a string in every case. -/
theorem chat_initFailure_counterexample :
    chat false
      (.error "Failed to initialize cooking agent: GITHUB_TOKEN environment variable not set")
      ⟨[], none⟩ =
    .error "Failed to initialize cooking agent: GITHUB_TOKEN environment variable not set" :=
  rfl

/-- C8 (amended): whenever the agent is already initialized, or its lazy
initialization succeeds, `chat` returns a string for every behaviour of
the model stream and never raises: a stream exception is converted to the
human-readable `"Error processing request: ..."` string returned to the
caller. -/
theorem chat_no_raise_when_initialized (initialized : Bool)
    (initOutcome : Except String Unit) (b : StreamBehavior)
    (h : initialized = true ∨ initOutcome = .ok ()) :
    chat initialized initOutcome b = .ok (chatTryBody b) ∧
    (∀ e, b.streamErr = some e →
      chatTryBody b = "Error processing request: " ++ e) := by
  constructor
  · rcases h with h | h
    · rw [chat.eq_def, if_pos h]
    · rw [chat.eq_def]
      by_cases hi : initialized = true
      · rw [if_pos hi]
      · rw [if_neg hi, h]
  · intro e he
    rw [chatTryBody, he]

/-- Witness for `chat_no_raise_when_initialized` at a concrete input. -/
theorem chat_no_raise_when_initialized_witness :
    chat true (.ok ()) ⟨[], some "boom"⟩ = .ok (chatTryBody ⟨[], some "boom"⟩) ∧
    chatTryBody ⟨[], some "boom"⟩ = "Error processing request: boom" :=
  ⟨(chat_no_raise_when_initialized true (.ok ()) ⟨[], some "boom"⟩ (Or.inl rfl)).1,
   (chat_no_raise_when_initialized true (.ok ()) ⟨[], some "boom"⟩ (Or.inl rfl)).2
     "boom" rfl⟩

end FinalApp
